import Mathlib

/-
Shallow embedding of the whale-monitor incremental detection and
significance-scoring core (src/monitor.py, src/database.py,
src/analyzer.py, src/exchange_db.py).

Modelling conventions:
- Python float arithmetic is modelled by exact rationals (ℚ).
- The SQLite tables are modelled by lists: `transactions` as an
  insertion-ordered list of stored rows, `wallet_tracking` as an
  association list keyed by (wallet_address, coin_type).
- Timestamps (`detected_at`, SQL `now`) are rationals measured in days,
  mirroring SQLite JULIANDAY arithmetic.
- The external fetch capability is a parameter of type
  `Except Unit (List RawTx)`: `.error` stands for the exceptions the
  source catches in `check_wallet`.
- Python's iteration over the unordered `set(from_addresses + to_addresses)`
  is modelled by an explicit `addr_order : List String` parameter; a valid
  order is any duplicate-free enumeration of that address set
  (`isSetIterationOrder`).
-/

namespace WhaleMonitor

/-- Raw transaction input as returned by the fetch capability:
`{addresses: [...], output_value: n}` with values in integer base units. -/
structure RawInput where
  addresses : List String
  output_value : Int
  deriving DecidableEq

/-- Raw transaction output: `{addresses: [...], value: n}`. -/
structure RawOutput where
  addresses : List String
  value : Int
  deriving DecidableEq

/-- Raw chain transaction payload. `block_height`, `confirmed` and
`received` are looked up with defaults in the source (`tx.get(...)`);
`block_height` is `none` when the key is absent. -/
structure RawTx where
  hash : String
  block_height : Option Int
  confirmed : Bool
  received : Option String
  inputs : List RawInput
  outputs : List RawOutput
  deriving DecidableEq

/-- Exchange registry (src/exchange_db.py), loaded read-only: a list of
(coin_type, address, exchange name) entries modelling the per-coin
address → info dictionaries. -/
structure ExchangeDB where
  entries : List (String × String × String)
  deriving DecidableEq

/-- `ExchangeDatabase.get_exchange_name`: name of the exchange owning
`address` for `coin_type`, if registered. -/
def ExchangeDB.get_exchange_name (db : ExchangeDB) (address coin_type : String) :
    Option String :=
  (db.entries.find? (fun e => e.1 == coin_type && e.2.1 == address)).map (fun e => e.2.2)

/-- `ExchangeDatabase.is_exchange_address`: membership of `address` in the
per-coin lookup dictionary. -/
def ExchangeDB.is_exchange_address (db : ExchangeDB) (address coin_type : String) : Bool :=
  (db.get_exchange_name address coin_type).isSome

/-- The processed-transaction dict built by `WhaleMonitor._process_transaction`. -/
structure TxRecord where
  tx_hash : String
  coin_type : String
  wallet_address : String
  wallet_rank : Int
  amount_native : ℚ
  amount_usd : Option ℚ
  from_addresses : List String
  to_addresses : List String
  is_outgoing : Bool
  is_exchange_related : Bool
  exchange_name : Option String
  block_height : Int
  confirmed : Bool
  tx_timestamp : Option String
  deriving DecidableEq

/-- The input-scan accumulation of `_process_transaction`: for every input
and every address occurrence equal to the wallet, add `output_value / 1e8`. -/
def inputAmount (wallet_address : String) (inputs : List RawInput) : ℚ :=
  inputs.foldl (fun acc inp =>
    inp.addresses.foldl (fun acc2 addr =>
      if addr = wallet_address then acc2 + (inp.output_value : ℚ) / 100000000 else acc2) acc) 0

/-- The output-scan accumulation of `_process_transaction` (incoming case):
for every output and every address occurrence equal to the wallet, add
`value / 1e8`. -/
def outputAmount (wallet_address : String) (outputs : List RawOutput) : ℚ :=
  outputs.foldl (fun acc out =>
    out.addresses.foldl (fun acc2 addr =>
      if addr = wallet_address then acc2 + (out.value : ℚ) / 100000000 else acc2) acc) 0

/-- Whether any input's address list contains the wallet (the condition under
which the source sets `is_outgoing = True`). -/
def walletInInputs (wallet_address : String) (inputs : List RawInput) : Bool :=
  inputs.any (fun inp => inp.addresses.contains wallet_address)

/-- The exchange scan of `_process_transaction`: walk the iteration order of
the address set, skip the wallet's own address, stop at the first
registered exchange address. Returns (is_exchange_related, exchange_name). -/
def exchangeScan (exdb : ExchangeDB) (wallet_address coin_type : String) :
    List String → Bool × Option String
  | [] => (false, none)
  | addr :: rest =>
    if addr != wallet_address && exdb.is_exchange_address addr coin_type then
      (true, exdb.get_exchange_name addr coin_type)
    else exchangeScan exdb wallet_address coin_type rest

/-- A valid iteration order of Python's `set(base)`: a duplicate-free list
with exactly the members of `base`. -/
def isSetIterationOrder (order base : List String) : Prop :=
  order.Nodup ∧ (∀ a ∈ order, a ∈ base) ∧ (∀ a ∈ base, a ∈ order)

/-- `WhaleMonitor._process_transaction`. `addr_order` is the iteration order
of `set(from_addresses + to_addresses)`. Returns `none` when no value is
attributable to the wallet (`amount_native == 0`). -/
def process_transaction (exdb : ExchangeDB) (addr_order : List String) (tx : RawTx)
    (wallet_address : String) (wallet_rank : Int) (coin_type : String)
    (current_price : Option ℚ) : Option TxRecord :=
  let is_outgoing := walletInInputs wallet_address tx.inputs
  let amount_native :=
    inputAmount wallet_address tx.inputs +
      (if is_outgoing then 0 else outputAmount wallet_address tx.outputs)
  if amount_native = 0 then none
  else
    let from_addresses := tx.inputs.foldl (fun acc inp => acc ++ inp.addresses) []
    let to_addresses := tx.outputs.foldl (fun acc out => acc ++ out.addresses) []
    let scan := exchangeScan exdb wallet_address coin_type addr_order
    let amount_usd :=
      match current_price with
      | some p => if p = 0 then none else some (amount_native * p)
      | none => none
    some
      { tx_hash := tx.hash
        coin_type := coin_type
        wallet_address := wallet_address
        wallet_rank := wallet_rank
        amount_native := amount_native
        amount_usd := amount_usd
        from_addresses := from_addresses
        to_addresses := to_addresses
        is_outgoing := is_outgoing
        is_exchange_related := scan.1
        exchange_name := scan.2
        block_height := tx.block_height.getD (-1)
        confirmed := tx.confirmed
        tx_timestamp := tx.received }

/-- A row of the `transactions` table: the record plus its
`detected_at` insertion timestamp (days). -/
structure StoredTx where
  record : TxRecord
  detected_at : ℚ
  deriving DecidableEq

/-- A row of the `wallet_tracking` table. -/
structure TrackRow where
  wallet_address : String
  coin_type : String
  wallet_rank : Option Int
  last_block_height : Int
  transaction_count : Int
  deriving DecidableEq

/-- The persistent store: the `transactions` and `wallet_tracking` tables. -/
structure DBState where
  transactions : List StoredTx
  tracking : List TrackRow
  deriving DecidableEq

/-- `WhaleDatabase.add_transaction`: idempotent insert; returns `false` and
leaves the table unchanged when a row with the same
(tx_hash, wallet_address) already exists (the UNIQUE constraint raises
IntegrityError in the source). -/
def add_transaction (db : DBState) (tx : TxRecord) (now : ℚ) : Bool × DBState :=
  if db.transactions.any (fun r =>
      r.record.tx_hash == tx.tx_hash && r.record.wallet_address == tx.wallet_address) then
    (false, db)
  else
    (true, { db with transactions := db.transactions ++ [⟨tx, now⟩] })

/-- Key match for a `wallet_tracking` row. -/
def trackKey (row : TrackRow) (wallet_address coin_type : String) : Bool :=
  row.wallet_address == wallet_address && row.coin_type == coin_type

/-- `WhaleDatabase.update_wallet_tracking`: SQL upsert. On conflict the
height becomes `MAX(last_block_height, candidate)`, the count is
incremented and the rank is `COALESCE(new, old)`; otherwise a fresh row
with the candidate height and count 1 is inserted. -/
def update_wallet_tracking (db : DBState) (wallet_address coin_type : String)
    (block_height : Int) (wallet_rank : Option Int) : DBState :=
  if db.tracking.any (fun r => trackKey r wallet_address coin_type) then
    { db with tracking := db.tracking.map (fun r =>
        if trackKey r wallet_address coin_type then
          { r with
            last_block_height := max r.last_block_height block_height
            transaction_count := r.transaction_count + 1
            wallet_rank := wallet_rank.orElse (fun _ => r.wallet_rank) }
        else r) }
  else
    { db with tracking := db.tracking ++
        [{ wallet_address := wallet_address
           coin_type := coin_type
           wallet_rank := wallet_rank
           last_block_height := block_height
           transaction_count := 1 }] }

/-- `WhaleDatabase.get_wallet_last_block`: stored height, or 0 when the
wallet has no tracking row. -/
def get_wallet_last_block (db : DBState) (wallet_address coin_type : String) : Int :=
  match db.tracking.find? (fun r => trackKey r wallet_address coin_type) with
  | some r => r.last_block_height
  | none => 0

/-- The per-transaction loop of `WhaleMonitor.check_wallet`. `last_block` is
the cursor value read once before the loop. A processed record is appended
to the returned list before the insert attempt; the cursor update runs
when `tx.get(block_height, 0) > last_block`. In that branch the source
reads `tx[block_height]` directly: when the key is absent this raises
KeyError, the outer handler catches it and the call returns `[]` with the
mutations made so far kept — modelled by the `none` case below. -/
def check_wallet_loop (exdb : ExchangeDB) (orders : RawTx → List String)
    (wallet_address : String) (rank : Int) (coin_type : String)
    (current_price : Option ℚ) (now : ℚ) (last_block : Int) :
    List TxRecord → DBState → List RawTx → List TxRecord × DBState
  | new_txs, db, [] => (new_txs, db)
  | new_txs, db, tx :: rest =>
    match process_transaction exdb (orders tx) tx wallet_address rank coin_type current_price with
    | none =>
      check_wallet_loop exdb orders wallet_address rank coin_type current_price now last_block
        new_txs db rest
    | some processed =>
      let new_txs2 := new_txs ++ [processed]
      let db2 := (add_transaction db processed now).2
      if (tx.block_height.getD 0) > last_block then
        match tx.block_height with
        | some h =>
          check_wallet_loop exdb orders wallet_address rank coin_type current_price now last_block
            new_txs2 (update_wallet_tracking db2 wallet_address coin_type h (some rank)) rest
        | none => ([], db2)
      else
        check_wallet_loop exdb orders wallet_address rank coin_type current_price now last_block
          new_txs2 db2 rest

/-- `WhaleMonitor.check_wallet`: read the cursor, consume the fetch result
(`.error` models any exception from the fetch capability: the wallet is
skipped and the store is untouched), then run the per-transaction loop. -/
def check_wallet (exdb : ExchangeDB) (orders : RawTx → List String)
    (fetched : Except Unit (List RawTx)) (current_price : Option ℚ) (now : ℚ)
    (db : DBState) (wallet_address : String) (rank : Int) (coin_type : String) :
    List TxRecord × DBState :=
  let last_block := get_wallet_last_block db wallet_address coin_type
  match fetched with
  | .error _ => ([], db)
  | .ok transactions =>
    check_wallet_loop exdb orders wallet_address rank coin_type current_price now last_block
      [] db transactions

/-- One poll of one wallet, with the external inputs it consumed. -/
structure PollOp where
  wallet_address : String
  rank : Int
  coin_type : String
  fetched : Except Unit (List RawTx)
  current_price : Option ℚ
  now : ℚ
  orders : RawTx → List String

/-- State change of a single poll. -/
def run_poll (exdb : ExchangeDB) (db : DBState) (op : PollOp) : DBState :=
  (check_wallet exdb op.orders op.fetched op.current_price op.now db
    op.wallet_address op.rank op.coin_type).2

/-- State change of a sequence of polls. -/
def run_polls (exdb : ExchangeDB) (db : DBState) (ops : List PollOp) : DBState :=
  ops.foldl (run_poll exdb) db

/-- Significance thresholds (`SignificanceAnalyzer.thresholds`):
(coin_type, large_tx, usd) entries. -/
structure Thresholds where
  entries : List (String × ℚ × ℚ)
  deriving DecidableEq

/-- The analyzer's default thresholds. -/
def default_thresholds : Thresholds :=
  ⟨[("BTC", 50, 1000000), ("DOGE", 10000000, 500000), ("LTC", 5000, 500000)]⟩

/-- `SignificanceAnalyzer.is_large_transaction`. An unknown coin resolves the
dict lookups to defaults of positive infinity, so both comparisons are
false — modelled by the `none` branch. `amount_usd` defaults to 0 and is
then tested for truthiness, so a missing or zero USD value never triggers
the USD comparison. -/
def is_large_transaction (th : Thresholds) (tx : TxRecord) : Bool :=
  match th.entries.find? (fun e => e.1 == tx.coin_type) with
  | none => false
  | some e =>
    if tx.amount_native ≥ e.2.1 then true
    else
      match tx.amount_usd with
      | some u => if u = 0 then false else decide (u ≥ e.2.2)
      | none => false

/-- `SignificanceAnalyzer.is_exchange_transfer`. -/
def is_exchange_transfer (tx : TxRecord) : Bool :=
  tx.is_exchange_related

/-- `WhaleDatabase.get_recent_transactions`: rows of the last `hours` hours
(optionally restricted to one coin), most recent first, truncated to
`limit` rows. Ordering among rows with equal `detected_at` is unspecified
in SQL; the embedding fixes the stable merge-sort order. -/
def get_recent_transactions (txdb : List StoredTx) (coin_type : Option String)
    (hours : ℚ) (limit : Nat) (now : ℚ) : List StoredTx :=
  let since := now - hours / 24
  let rows : List StoredTx :=
    match coin_type with
    | some c => txdb.filter (fun r => r.record.coin_type == c && decide (since < r.detected_at))
    | none => txdb.filter (fun r => decide (since < r.detected_at))
  (rows.mergeSort (fun a b => decide (b.detected_at ≤ a.detected_at))).take limit

/-- `SignificanceAnalyzer.is_unusual_activity`: compare the wallet's count of
records in the last `hours` hours (through `get_recent_transactions`, which
is limited to 100 coin-wide rows) against three times the rate expected
from its 30-day history. In the `none` branch the SQL MIN is NULL and the
source's rate division raises; that branch is unreachable whenever
`recent_count > 0` and `hours ≤ 720`. -/
def is_unusual_activity (txdb : List StoredTx) (wallet_address coin_type : String)
    (hours : ℚ) (now : ℚ) : Bool :=
  let recent_txs := get_recent_transactions txdb (some coin_type) hours 100 now
  let wallet_recent := recent_txs.filter (fun r => r.record.wallet_address == wallet_address)
  let recent_count : ℚ := wallet_recent.length
  if recent_count = 0 then false
  else
    let hist := txdb.filter (fun r =>
      r.record.wallet_address == wallet_address && r.record.coin_type == coin_type &&
        decide (now - 30 < r.detected_at))
    match (hist.map (fun r => r.detected_at)).min? with
    | none => false
    | some first =>
      let days := now - first
      if days = 0 then false
      else
        let total_count : ℚ := hist.length
        let avg_daily := total_count / days
        let expected_in_period := avg_daily * (hours / 24)
        decide (recent_count > expected_in_period * 3)

/-- Accumulation/distribution verdict of the pattern detector. -/
inductive FlowPattern
  | accumulating
  | distributing
  deriving DecidableEq

/-- `SignificanceAnalyzer.detect_accumulation_pattern`: net flow of the
wallet over the lookback window against a `0.1 * max(inflow, outflow)`
threshold. The SQL SUMs are NULL over an empty window and fall back to 0. -/
def detect_accumulation_pattern (txdb : List StoredTx) (wallet_address coin_type : String)
    (days : ℚ) (now : ℚ) : Option FlowPattern :=
  let rows := txdb.filter (fun r =>
    r.record.wallet_address == wallet_address && r.record.coin_type == coin_type &&
      decide (now - days < r.detected_at))
  let inflow := (rows.map (fun r =>
    if r.record.is_outgoing then 0 else r.record.amount_native)).sum
  let outflow := (rows.map (fun r =>
    if r.record.is_outgoing then r.record.amount_native else 0)).sum
  let net_flow := inflow - outflow
  let threshold := max inflow outflow * (1 / 10)
  if |net_flow| < threshold then none
  else if net_flow > 0 then some .accumulating else some .distributing

/-- The tag the source emits for an asserted pattern (`pattern.upper()`). -/
def FlowPattern.upperName : FlowPattern → String
  | .accumulating => "ACCUMULATING"
  | .distributing => "DISTRIBUTING"

/-- The transient analysis dict built by `analyze_transaction`. -/
structure Analysis where
  is_large : Bool
  is_exchange : Bool
  is_unusual : Bool
  pattern : Option FlowPattern
  significance_score : Int
  tags : List String
  deriving DecidableEq

/-- `SignificanceAnalyzer.analyze_transaction`: the four factors in fixed
order, the weighted score capped at 10, and the tag list. The unusual and
pattern factors are only computed when the record carries a (truthy, i.e.
non-empty) wallet address. -/
def analyze_transaction (txdb : List StoredTx) (th : Thresholds) (tx : TxRecord)
    (now : ℚ) : Analysis :=
  let is_large := is_large_transaction th tx
  let is_exchange := is_exchange_transfer tx
  let is_unusual :=
    if tx.wallet_address != "" then
      is_unusual_activity txdb tx.wallet_address tx.coin_type 24 now
    else false
  let pattern :=
    if tx.wallet_address != "" then
      detect_accumulation_pattern txdb tx.wallet_address tx.coin_type 7 now
    else none
  let score : Int :=
    (if is_large then 4 else 0) + (if is_exchange then 3 else 0) +
      (if is_unusual then 2 else 0) + (if pattern.isSome then 1 else 0)
  let tags :=
    (if is_large then ["LARGE"] else []) ++
      (if is_exchange then ["EXCHANGE"] else []) ++
        (if is_unusual then ["UNUSUAL"] else []) ++
          (match pattern with
           | some p => [p.upperName]
           | none => [])
  { is_large := is_large
    is_exchange := is_exchange
    is_unusual := is_unusual
    pattern := pattern
    significance_score := min score 10
    tags := tags }

/-- Distinct elements of a list in first-occurrence order (the embedding's
fixed choice for SQL GROUP BY output order). -/
def firstOccurrences : List String → List String
  | [] => []
  | a :: rest => a :: firstOccurrences (rest.filter (fun b => b != a))
termination_by l => l.length
decreasing_by
  simp only [List.length_cons]
  exact Nat.lt_succ_of_le (List.length_filter_le _ _)

/-- One row of `get_most_active_wallets`. -/
structure ActiveWallet where
  wallet_address : String
  wallet_rank : Option Int
  tx_count : Nat
  total_volume : ℚ
  deriving DecidableEq

/-- `WhaleDatabase.get_most_active_wallets`: group the window's rows by
wallet, count and sum per group, order by count descending (ties keep the
grouping order; SQL leaves them unspecified) and truncate. The ungrouped
`wallet_rank` column is resolved to the first row of the group. -/
def get_most_active_wallets (txdb : List StoredTx) (coin_type : String)
    (hours : ℚ) (limit : Nat) (now : ℚ) : List ActiveWallet :=
  let rows := txdb.filter (fun r =>
    r.record.coin_type == coin_type && decide (now - hours / 24 < r.detected_at))
  let groups := (firstOccurrences (rows.map (fun r => r.record.wallet_address))).map (fun a =>
    let g := rows.filter (fun r => r.record.wallet_address == a)
    ({ wallet_address := a
       wallet_rank := g.head?.map (fun r => r.record.wallet_rank)
       tx_count := g.length
       total_volume := (g.map (fun r => r.record.amount_native)).sum } : ActiveWallet))
  (groups.mergeSort (fun x y => decide (y.tx_count ≤ x.tx_count))).take limit

/-- A value of the summary dict: a number or the most-active list. -/
inductive StatVal
  | num (q : ℚ)
  | wallets (ws : List ActiveWallet)
  deriving DecidableEq

/-- `SignificanceAnalyzer.generate_summary_stats`: the summary dict as an
insertion-ordered key/value list. The empty-window branch is the literal
dict the source returns there. -/
def generate_summary_stats (txdb : List StoredTx) (th : Thresholds)
    (coin_type : String) (hours : ℚ) (now : ℚ) : List (String × StatVal) :=
  let transactions := get_recent_transactions txdb (some coin_type) hours 10000 now
  if transactions.isEmpty then
    [("total_volume_native", StatVal.num 0),
     ("total_volume_usd", StatVal.num 0),
     ("transaction_count", StatVal.num 0),
     ("exchange_inflow", StatVal.num 0),
     ("exchange_outflow", StatVal.num 0),
     ("significant_count", StatVal.num 0),
     ("most_active", StatVal.wallets [])]
  else
    let total_volume_native := (transactions.map (fun r => r.record.amount_native)).sum
    let total_volume_usd := (transactions.map (fun r => r.record.amount_usd.getD 0)).sum
    let exchange_inflow := (transactions.map (fun r =>
      if r.record.is_exchange_related && r.record.is_outgoing then r.record.amount_native
      else 0)).sum
    let exchange_outflow := (transactions.map (fun r =>
      if r.record.is_exchange_related && !r.record.is_outgoing then r.record.amount_native
      else 0)).sum
    let significant_count : ℚ := (transactions.filter (fun r =>
      is_large_transaction th r.record || is_exchange_transfer r.record)).length
    let most_active := get_most_active_wallets txdb coin_type hours 5 now
    [("total_volume_native", StatVal.num total_volume_native),
     ("total_volume_usd", StatVal.num total_volume_usd),
     ("transaction_count", StatVal.num transactions.length),
     ("exchange_inflow", StatVal.num exchange_inflow),
     ("exchange_outflow", StatVal.num exchange_outflow),
     ("exchange_net_flow", StatVal.num (exchange_inflow - exchange_outflow)),
     ("significant_count", StatVal.num significant_count),
     ("most_active", StatVal.wallets most_active)]

end WhaleMonitor

namespace WhaleMonitor

/-- C3: for every input record and every combination of the four factors,
`analyze_transaction` produces a significance score equal to
min(4·[large] + 3·[exchange] + 2·[unusual] + 1·[pattern asserted], 10),
hence always within [0, 10], and emits the tags in the fixed order
LARGE, EXCHANGE, UNUSUAL, pattern name. -/
theorem analyze_transaction_score_spec (txdb : List StoredTx) (th : Thresholds)
    (tx : TxRecord) (now : ℚ) :
    (analyze_transaction txdb th tx now).significance_score =
        min ((if (analyze_transaction txdb th tx now).is_large then 4 else 0) +
          (if (analyze_transaction txdb th tx now).is_exchange then 3 else 0) +
          (if (analyze_transaction txdb th tx now).is_unusual then 2 else 0) +
          (if (analyze_transaction txdb th tx now).pattern.isSome then 1 else 0)) 10 ∧
      0 ≤ (analyze_transaction txdb th tx now).significance_score ∧
      (analyze_transaction txdb th tx now).significance_score ≤ 10 ∧
      (analyze_transaction txdb th tx now).tags =
        (if (analyze_transaction txdb th tx now).is_large then ["LARGE"] else []) ++
          (if (analyze_transaction txdb th tx now).is_exchange then ["EXCHANGE"] else []) ++
            (if (analyze_transaction txdb th tx now).is_unusual then ["UNUSUAL"] else []) ++
              (match (analyze_transaction txdb th tx now).pattern with
               | some p => [p.upperName]
               | none => []) := by
  unfold analyze_transaction
  cases hL : is_large_transaction th tx <;>
    cases hE : is_exchange_transfer tx <;>
      cases hU : (if tx.wallet_address != "" then
          is_unusual_activity txdb tx.wallet_address tx.coin_type 24 now else false) <;>
        cases hP : (if tx.wallet_address != "" then
            detect_accumulation_pattern txdb tx.wallet_address tx.coin_type 7 now else none) <;>
          simp [hL, hE, hU, hP]

end WhaleMonitor

namespace WhaleMonitor

/-- C4 failing input: a wallet with no records in the lookback window has
inflow = outflow = 0, so the net flow (0) is at the noise floor (0); the
source's strict `<` rejection test does not fire and the detector asserts
the `distributing` pattern instead of returning no pattern. -/
theorem detect_accumulation_pattern_empty_window :
    detect_accumulation_pattern [] "whale-1" "BTC" 7 0 = some FlowPattern.distributing := by
  norm_num [detect_accumulation_pattern]

end WhaleMonitor

namespace WhaleMonitor

/-- C9: on a window with no records, `generate_summary_stats` returns the
empty-branch dict without raising — but that dict has only seven keys:
`exchange_net_flow`, required by the contract, is absent (the non-empty
branch does include it). Concretely evaluated on an empty store. -/
theorem generate_summary_stats_empty_window :
    generate_summary_stats [] default_thresholds "BTC" 24 0 =
        [("total_volume_native", StatVal.num 0),
         ("total_volume_usd", StatVal.num 0),
         ("transaction_count", StatVal.num 0),
         ("exchange_inflow", StatVal.num 0),
         ("exchange_outflow", StatVal.num 0),
         ("significant_count", StatVal.num 0),
         ("most_active", StatVal.wallets [])] ∧
      ∀ kv ∈ generate_summary_stats [] default_thresholds "BTC" 24 0,
        kv.1 ≠ "exchange_net_flow" := by
  have h : generate_summary_stats [] default_thresholds "BTC" 24 0 =
      [("total_volume_native", StatVal.num 0),
       ("total_volume_usd", StatVal.num 0),
       ("transaction_count", StatVal.num 0),
       ("exchange_inflow", StatVal.num 0),
       ("exchange_outflow", StatVal.num 0),
       ("significant_count", StatVal.num 0),
       ("most_active", StatVal.wallets [])] := by
    simp [generate_summary_stats, get_recent_transactions]
  refine ⟨h, ?_⟩
  rw [h]
  intro kv hkv
  simp only [List.mem_cons, List.not_mem_nil, or_false] at hkv
  rcases hkv with h1 | h1 | h1 | h1 | h1 | h1 | h1 <;> subst h1 <;> simp

end WhaleMonitor

namespace WhaleMonitor

/-- Folding the classifier's per-occurrence accumulation over one address
list adds the value once per occurrence of the wallet address. -/
theorem foldl_if_add_count (W : String) (v : ℚ) (l : List String) (acc : ℚ) :
    l.foldl (fun a addr => if addr = W then a + v else a) acc
      = acc + (l.count W : ℚ) * v := by
  induction l generalizing acc with
  | nil => simp
  | cons hd tl ih =>
    by_cases h : hd = W
    · subst h
      simp only [List.foldl_cons, if_pos rfl, ih, List.count_cons, beq_self_eq_true,
        if_pos, Nat.cast_add, Nat.cast_one]
      ring
    · simp only [List.foldl_cons, if_neg h, ih, List.count_cons]
      have hb : (hd == W) = false := by simp [h]
      simp [hb]

/-- `inputAmount` counted per occurrence: every input contributes its
`output_value / 1e8` once for each occurrence of the wallet address in its
address list. -/
theorem inputAmount_eq_sum (W : String) (inputs : List RawInput) :
    inputAmount W inputs =
      (inputs.map (fun inp =>
        (inp.addresses.count W : ℚ) * ((inp.output_value : ℚ) / 100000000))).sum := by
  unfold inputAmount
  suffices h : ∀ acc : ℚ, inputs.foldl (fun acc inp =>
      inp.addresses.foldl (fun acc2 addr =>
        if addr = W then acc2 + (inp.output_value : ℚ) / 100000000 else acc2) acc) acc
      = acc + (inputs.map (fun inp =>
          (inp.addresses.count W : ℚ) * ((inp.output_value : ℚ) / 100000000))).sum by
    simpa using h 0
  induction inputs with
  | nil => simp
  | cons hd tl ih =>
    intro acc
    rw [List.foldl_cons, foldl_if_add_count, ih]
    simp only [List.map_cons, List.sum_cons]
    ring

/-- `outputAmount` counted per occurrence. -/
theorem outputAmount_eq_sum (W : String) (outputs : List RawOutput) :
    outputAmount W outputs =
      (outputs.map (fun out =>
        (out.addresses.count W : ℚ) * ((out.value : ℚ) / 100000000))).sum := by
  unfold outputAmount
  suffices h : ∀ acc : ℚ, outputs.foldl (fun acc out =>
      out.addresses.foldl (fun acc2 addr =>
        if addr = W then acc2 + (out.value : ℚ) / 100000000 else acc2) acc) acc
      = acc + (outputs.map (fun out =>
          (out.addresses.count W : ℚ) * ((out.value : ℚ) / 100000000))).sum by
    simpa using h 0
  induction outputs with
  | nil => simp
  | cons hd tl ih =>
    intro acc
    rw [List.foldl_cons, foldl_if_add_count, ih]
    simp only [List.map_cons, List.sum_cons]
    ring

/-- When no input's address list contains the wallet, the input scan
accumulates nothing. -/
theorem inputAmount_eq_zero_of_not_in (W : String) (inputs : List RawInput)
    (h : walletInInputs W inputs = false) : inputAmount W inputs = 0 := by
  rw [inputAmount_eq_sum]
  apply List.sum_eq_zero
  intro x hx
  rcases List.mem_map.mp hx with ⟨inp, hinp, rfl⟩
  have hm : W ∉ inp.addresses := by
    simp only [walletInInputs, List.any_eq_false] at h
    have h2 := h inp hinp
    simpa using h2
  rw [List.count_eq_zero.mpr hm]
  simp

end WhaleMonitor

namespace WhaleMonitor

/-- The amount attribution as worded by the claim: each input whose address
list contains the wallet contributes its `output_value / 1e8` once,
regardless of how many times the wallet occurs in that input's list. -/
def claimed_input_amount (wallet_address : String) (inputs : List RawInput) : ℚ :=
  ((inputs.filter (fun inp => inp.addresses.contains wallet_address)).map
    (fun inp => (inp.output_value : ℚ) / 100000000)).sum

/-- A transaction whose single input lists the wallet address twice. -/
def txDupInput : RawTx :=
  { hash := "hdup"
    block_height := some 3
    confirmed := true
    received := none
    inputs := [⟨["w-dup", "w-dup"], 10000000000⟩]
    outputs := [] }

/-- C6 counterexample: on an input listing the wallet twice with
`output_value` 100e8, the source accumulates once per occurrence and
classifies `amount_native = 200`, while the claim's per-input sum is 100. -/
theorem process_transaction_counts_per_occurrence :
    (process_transaction ⟨[]⟩ ["w-dup"] txDupInput "w-dup" 1 "BTC" none).map
        (fun r => r.amount_native) = some 200 ∧
      claimed_input_amount "w-dup" txDupInput.inputs = 100 ∧ (200 : ℚ) ≠ 100 := by
  refine ⟨?_, ?_, by norm_num⟩
  · norm_num [process_transaction, txDupInput, inputAmount, walletInInputs, exchangeScan]
  · norm_num [claimed_input_amount, txDupInput]

/-- C6 amended: classification sets `is_outgoing` exactly when some input's
address list contains the wallet, and the attributed amount is summed once
per occurrence of the wallet address — over the inputs when outgoing, over
the outputs when incoming. -/
theorem process_transaction_amount_spec (exdb : ExchangeDB) (addr_order : List String)
    (tx : RawTx) (W : String) (rank : Int) (coin : String) (price : Option ℚ)
    (r : TxRecord)
    (h : process_transaction exdb addr_order tx W rank coin price = some r) :
    (r.is_outgoing = true ↔ ∃ inp ∈ tx.inputs, W ∈ inp.addresses) ∧
      (r.is_outgoing = true →
        r.amount_native =
          (tx.inputs.map (fun inp =>
            (inp.addresses.count W : ℚ) * ((inp.output_value : ℚ) / 100000000))).sum) ∧
      (r.is_outgoing = false →
        r.amount_native =
          (tx.outputs.map (fun out =>
            (out.addresses.count W : ℚ) * ((out.value : ℚ) / 100000000))).sum) := by
  unfold process_transaction at h
  by_cases hz : inputAmount W tx.inputs +
      (if walletInInputs W tx.inputs then 0 else outputAmount W tx.outputs) = 0
  · simp only [hz, if_pos rfl] at h
    exact absurd h (by simp)
  · simp only [if_neg hz, Option.some.injEq] at h
    subst h
    refine ⟨?_, ?_, ?_⟩
    · simp [walletInInputs, List.any_eq_true]
    · intro ho
      simp only at ho
      simp [ho, inputAmount_eq_sum]
    · intro ho
      simp only at ho
      simp [ho, inputAmount_eq_zero_of_not_in W tx.inputs ho, outputAmount_eq_sum]

end WhaleMonitor

namespace WhaleMonitor

/-- The claim's own example: the wallet appears in two inputs with
output values 50e8 and 30e8. -/
def txTwoInputs : RawTx :=
  { hash := "h2"
    block_height := some 9
    confirmed := true
    received := none
    inputs := [⟨["w-a"], 5000000000⟩, ⟨["w-a"], 3000000000⟩]
    outputs := [] }

/-- The record the classifier builds for `txTwoInputs`. -/
def recTwoInputs : TxRecord :=
  { tx_hash := "h2"
    coin_type := "BTC"
    wallet_address := "w-a"
    wallet_rank := 1
    amount_native := 80
    amount_usd := none
    from_addresses := ["w-a", "w-a"]
    to_addresses := []
    is_outgoing := true
    is_exchange_related := false
    exchange_name := none
    block_height := 9
    confirmed := true
    tx_timestamp := none }

/-- Witness for the amended C6 theorem at the claim's 50e8/30e8 example:
outgoing, amount 80. -/
theorem process_transaction_amount_spec_witness :
    (recTwoInputs.is_outgoing = true ↔ ∃ inp ∈ txTwoInputs.inputs, "w-a" ∈ inp.addresses) ∧
      (recTwoInputs.is_outgoing = true →
        recTwoInputs.amount_native =
          (txTwoInputs.inputs.map (fun inp =>
            (inp.addresses.count "w-a" : ℚ) * ((inp.output_value : ℚ) / 100000000))).sum) ∧
      (recTwoInputs.is_outgoing = false →
        recTwoInputs.amount_native =
          (txTwoInputs.outputs.map (fun out =>
            (out.addresses.count "w-a" : ℚ) * ((out.value : ℚ) / 100000000))).sum) :=
  process_transaction_amount_spec ⟨[]⟩ ["w-a"] txTwoInputs "w-a" 1 "BTC" none recTwoInputs
    (by norm_num [process_transaction, txTwoInputs, recTwoInputs, inputAmount,
      walletInInputs, exchangeScan])

end WhaleMonitor

namespace WhaleMonitor

/-- A registry with two BTC exchange addresses owned by different exchanges. -/
def exdbTwo : ExchangeDB :=
  ⟨[("BTC", "ex-a", "Binance"), ("BTC", "ex-b", "Coinbase")]⟩

/-- A transaction from wallet `w7` paying both registered addresses. -/
def txTwoExchanges : RawTx :=
  { hash := "h7"
    block_height := some 10
    confirmed := true
    received := none
    inputs := [⟨["w7"], 10000000000⟩]
    outputs := [⟨["ex-a"], 4000000000⟩, ⟨["ex-b"], 6000000000⟩] }

/-- C7: with two exchange-registered addresses touched, the reported
`exchange_name` depends on the iteration order of the unordered address
set: two valid iteration orders of the same set give different names, so
the attribution is not a function of the raw input alone. -/
theorem process_transaction_exchange_name_order_dependent :
    isSetIterationOrder ["w7", "ex-a", "ex-b"] ["w7", "ex-a", "ex-b"] ∧
      isSetIterationOrder ["w7", "ex-b", "ex-a"] ["w7", "ex-a", "ex-b"] ∧
      (txTwoExchanges.inputs.foldl (fun acc inp => acc ++ inp.addresses) [] ++
        txTwoExchanges.outputs.foldl (fun acc out => acc ++ out.addresses) []) =
        ["w7", "ex-a", "ex-b"] ∧
      (process_transaction exdbTwo ["w7", "ex-a", "ex-b"] txTwoExchanges
          "w7" 1 "BTC" none).map (fun r => r.exchange_name) = some (some "Binance") ∧
      (process_transaction exdbTwo ["w7", "ex-b", "ex-a"] txTwoExchanges
          "w7" 1 "BTC" none).map (fun r => r.exchange_name) = some (some "Coinbase") ∧
      (some "Binance" : Option String) ≠ some "Coinbase" := by
  refine ⟨?_, ?_, by norm_num [txTwoExchanges], ?_, ?_, by simp⟩
  · constructor
    · decide
    · constructor <;> decide
  · constructor
    · decide
    · constructor <;> decide
  · norm_num [process_transaction, txTwoExchanges, exdbTwo, inputAmount, walletInInputs,
      exchangeScan, ExchangeDB.is_exchange_address, ExchangeDB.get_exchange_name]
    decide
  · norm_num [process_transaction, txTwoExchanges, exdbTwo, inputAmount, walletInInputs,
      exchangeScan, ExchangeDB.is_exchange_address, ExchangeDB.get_exchange_name]
    decide

end WhaleMonitor

namespace WhaleMonitor

/-- Whether a tracking row for (wallet, coin) exists (the upsert's conflict
test). -/
def tracked (db : DBState) (wallet_address coin_type : String) : Bool :=
  db.tracking.any (fun r => trackKey r wallet_address coin_type)

/-- Inserting a transaction never touches the tracking table. -/
theorem add_transaction_tracking (db : DBState) (tx : TxRecord) (now : ℚ) :
    (add_transaction db tx now).2.tracking = db.tracking := by
  unfold add_transaction
  split <;> rfl

/-- The cursor read is unchanged by `add_transaction`. -/
theorem get_wallet_last_block_add (db : DBState) (tx : TxRecord) (now : ℚ)
    (w c : String) :
    get_wallet_last_block (add_transaction db tx now).2 w c =
      get_wallet_last_block db w c := by
  unfold get_wallet_last_block
  rw [add_transaction_tracking]

/-- `tracked` is unchanged by `add_transaction`. -/
theorem tracked_add (db : DBState) (tx : TxRecord) (now : ℚ) (w c : String) :
    tracked (add_transaction db tx now).2 w c = tracked db w c := by
  unfold tracked
  rw [add_transaction_tracking]

/-- The upsert's row rewrite preserves the key columns. -/
theorem trackKey_upsert_fun (w c : String) (h : Int) (rk : Option Int)
    (r : TrackRow) (w2 c2 : String) :
    trackKey (if trackKey r w c then
        { r with
          last_block_height := max r.last_block_height h
          transaction_count := r.transaction_count + 1
          wallet_rank := rk.orElse (fun _ => r.wallet_rank) }
      else r) w2 c2 = trackKey r w2 c2 := by
  unfold trackKey
  split <;> rfl

/-- An untracked (wallet, coin) reads cursor 0. -/
theorem get_wallet_last_block_of_not_tracked (db : DBState) (w c : String)
    (h : tracked db w c = false) : get_wallet_last_block db w c = 0 := by
  unfold get_wallet_last_block
  have hf : db.tracking.find? (fun r => trackKey r w c) = none := by
    rw [List.find?_eq_none]
    intro x hx
    have := List.any_eq_false.mp h x hx
    simpa using this
  rw [hf]

/-- Cursor read after an upsert on the same key: `MAX(stored, candidate)`
when a row existed, the candidate when the row is fresh. -/
theorem get_wallet_last_block_update_same (db : DBState) (w c : String)
    (h : Int) (rk : Option Int) :
    get_wallet_last_block (update_wallet_tracking db w c h rk) w c =
      if tracked db w c then max (get_wallet_last_block db w c) h else h := by
  unfold update_wallet_tracking tracked get_wallet_last_block
  by_cases hany : db.tracking.any (fun r => trackKey r w c) = true
  · simp only [hany, if_true]
    rw [List.find?_map]
    have hcong : ((fun r => trackKey r w c) ∘ (fun r =>
        if trackKey r w c then
          { r with
            last_block_height := max r.last_block_height h
            transaction_count := r.transaction_count + 1
            wallet_rank := rk.orElse (fun _ => r.wallet_rank) }
        else r)) = fun r => trackKey r w c := by
      funext r
      exact trackKey_upsert_fun w c h rk r w c
    rw [hcong]
    rcases hf : db.tracking.find? (fun r => trackKey r w c) with _ | r0
    · rcases List.any_eq_true.mp hany with ⟨x, hx, hpx⟩
      have := List.find?_eq_none.mp hf x hx
      exact absurd hpx this
    · have hp0 := List.find?_some hf
      simp [hp0]
  · have hfalse : db.tracking.any (fun r => trackKey r w c) = false :=
      Bool.eq_false_iff.mpr hany
    simp only [hfalse, Bool.false_eq_true, if_false]
    have hf : db.tracking.find? (fun r => trackKey r w c) = none := by
      rw [List.find?_eq_none]
      intro x hx
      have := List.any_eq_false.mp hfalse x hx
      simpa using this
    rw [List.find?_append, hf]
    simp [trackKey]

/-- Cursor read after an upsert on a different key is unchanged. -/
theorem get_wallet_last_block_update_other (db : DBState) (w c : String)
    (h : Int) (rk : Option Int) (w2 c2 : String) (hne : ¬(w2 = w ∧ c2 = c)) :
    get_wallet_last_block (update_wallet_tracking db w c h rk) w2 c2 =
      get_wallet_last_block db w2 c2 := by
  unfold update_wallet_tracking get_wallet_last_block
  by_cases hany : db.tracking.any (fun r => trackKey r w c) = true
  · simp only [hany, if_true]
    rw [List.find?_map]
    have hcong : ((fun r => trackKey r w2 c2) ∘ (fun r =>
        if trackKey r w c then
          { r with
            last_block_height := max r.last_block_height h
            transaction_count := r.transaction_count + 1
            wallet_rank := rk.orElse (fun _ => r.wallet_rank) }
        else r)) = fun r => trackKey r w2 c2 := by
      funext r
      exact trackKey_upsert_fun w c h rk r w2 c2
    rw [hcong]
    rcases hf : db.tracking.find? (fun r => trackKey r w2 c2) with _ | r0
    · rfl
    · have hp0 := List.find?_some hf
      unfold trackKey at hp0
      simp only [Bool.and_eq_true, beq_iff_eq] at hp0
      have hnot : trackKey r0 w c = false := by
        unfold trackKey
        rw [Bool.eq_false_iff]
        intro hcon
        simp only [Bool.and_eq_true, beq_iff_eq] at hcon
        refine hne ⟨?_, ?_⟩
        · rw [← hp0.1, hcon.1]
        · rw [← hp0.2, hcon.2]
      simp [hnot]
  · have hfalse : db.tracking.any (fun r => trackKey r w c) = false :=
      Bool.eq_false_iff.mpr hany
    simp only [hfalse, Bool.false_eq_true, if_false]
    rw [List.find?_append]
    have hnew : trackKey
        { wallet_address := w
          coin_type := c
          wallet_rank := rk
          last_block_height := h
          transaction_count := 1 } w2 c2 = false := by
      unfold trackKey
      rw [Bool.eq_false_iff]
      intro hcon
      simp only [Bool.and_eq_true, beq_iff_eq] at hcon
      exact hne ⟨hcon.1.symm, hcon.2.symm⟩
    simp [hnew]

end WhaleMonitor

namespace WhaleMonitor

/-- After an upsert, the upserted key is tracked. -/
theorem tracked_update_same (db : DBState) (w c : String) (h : Int)
    (rk : Option Int) :
    tracked (update_wallet_tracking db w c h rk) w c = true := by
  unfold tracked update_wallet_tracking
  by_cases hany : db.tracking.any (fun r => trackKey r w c) = true
  · simp only [hany, if_true]
    rcases List.any_eq_true.mp hany with ⟨x, hx, hpx⟩
    apply List.any_eq_true.mpr
    refine ⟨_, List.mem_map.mpr ⟨x, hx, rfl⟩, ?_⟩
    rw [trackKey_upsert_fun]
    exact hpx
  · have hfalse : db.tracking.any (fun r => trackKey r w c) = false :=
      Bool.eq_false_iff.mpr hany
    simp only [hfalse, Bool.false_eq_true, if_false]
    apply List.any_eq_true.mpr
    refine ⟨_, List.mem_append_right _ (List.mem_singleton_self _), ?_⟩
    unfold trackKey
    simp

/-- An upsert never removes a tracked key. -/
theorem tracked_update_mono (db : DBState) (w c : String) (h : Int)
    (rk : Option Int) (w2 c2 : String) (ht : tracked db w2 c2 = true) :
    tracked (update_wallet_tracking db w c h rk) w2 c2 = true := by
  unfold tracked update_wallet_tracking
  unfold tracked at ht
  by_cases hany : db.tracking.any (fun r => trackKey r w c) = true
  · simp only [hany, if_true]
    rcases List.any_eq_true.mp ht with ⟨x, hx, hpx⟩
    apply List.any_eq_true.mpr
    refine ⟨_, List.mem_map.mpr ⟨x, hx, rfl⟩, ?_⟩
    rw [trackKey_upsert_fun]
    exact hpx
  · have hfalse : db.tracking.any (fun r => trackKey r w c) = false :=
      Bool.eq_false_iff.mpr hany
    simp only [hfalse, Bool.false_eq_true, if_false]
    rcases List.any_eq_true.mp ht with ⟨x, hx, hpx⟩
    exact List.any_eq_true.mpr ⟨x, List.mem_append_left _ hx, hpx⟩

/-- A single upsert made from the poller's guard never lowers any cursor:
other keys are untouched, an existing row goes to `MAX(stored, candidate)`,
and a fresh row is only created with a candidate that beat the read of 0. -/
theorem get_wallet_last_block_update_ge (db : DBState) (w c : String)
    (h : Int) (rk : Option Int)
    (hcand : tracked db w c = true ∨ 0 < h) (w2 c2 : String) :
    get_wallet_last_block db w2 c2 ≤
      get_wallet_last_block (update_wallet_tracking db w c h rk) w2 c2 := by
  by_cases hkey : w2 = w ∧ c2 = c
  · rcases hkey with ⟨rfl, rfl⟩
    rw [get_wallet_last_block_update_same]
    cases htr : tracked db w2 c2
    · simp only [Bool.false_eq_true, if_false]
      rw [get_wallet_last_block_of_not_tracked db w2 c2 htr]
      rcases hcand with hl | hr
      · rw [htr] at hl
        exact absurd hl (by simp)
      · exact le_of_lt hr
    · simp only [if_true]
      exact le_max_left _ _
  · rw [get_wallet_last_block_update_other db w c h rk w2 c2 hkey]

end WhaleMonitor

namespace WhaleMonitor

/-- Along the poll loop no cursor ever decreases, for any key. -/
theorem check_wallet_loop_glwb_mono (exdb : ExchangeDB) (orders : RawTx → List String)
    (W : String) (rank : Int) (C : String) (price : Option ℚ) (now : ℚ)
    (last_block : Int) :
    ∀ (txs : List RawTx) (acc : List TxRecord) (db : DBState),
      (tracked db W C = true ∨ last_block = 0) →
      ∀ w c, get_wallet_last_block db w c ≤
        get_wallet_last_block
          (check_wallet_loop exdb orders W rank C price now last_block acc db txs).2 w c := by
  intro txs
  induction txs with
  | nil =>
    intro acc db hinv w c
    simp [check_wallet_loop]
  | cons tx rest ih =>
    intro acc db hinv w c
    rcases hp : process_transaction exdb (orders tx) tx W rank C price with _ | processed
    · simp only [check_wallet_loop, hp]
      exact ih acc db hinv w c
    · simp only [check_wallet_loop, hp]
      by_cases hguard : (tx.block_height.getD 0) > last_block
      · simp only [if_pos hguard]
        rcases hh : tx.block_height with _ | hgt
        · simp only
          rw [get_wallet_last_block_add]
        · simp only
          have hinv2 : tracked (add_transaction db processed now).2 W C = true ∨
              last_block = 0 := by
            rw [tracked_add]; exact hinv
          have hcand : tracked (add_transaction db processed now).2 W C = true ∨ 0 < hgt := by
            rcases hinv2 with hL | hR
            · exact Or.inl hL
            · right
              rw [hh] at hguard
              simp only [Option.getD_some] at hguard
              omega
          have step1 : get_wallet_last_block db w c =
              get_wallet_last_block (add_transaction db processed now).2 w c :=
            (get_wallet_last_block_add db processed now w c).symm
          have step2 : get_wallet_last_block (add_transaction db processed now).2 w c ≤
              get_wallet_last_block
                (update_wallet_tracking (add_transaction db processed now).2
                  W C hgt (some rank)) w c :=
            get_wallet_last_block_update_ge _ W C hgt (some rank) hcand w c
          have hinv3 : tracked (update_wallet_tracking (add_transaction db processed now).2
              W C hgt (some rank)) W C = true ∨ last_block = 0 :=
            Or.inl (tracked_update_same _ W C hgt (some rank))
          have step3 := ih (acc ++ [processed])
            (update_wallet_tracking (add_transaction db processed now).2 W C hgt (some rank))
            hinv3 w c
          exact le_trans (le_of_eq step1) (le_trans step2 step3)
      · simp only [if_neg hguard]
        have hinv2 : tracked (add_transaction db processed now).2 W C = true ∨
            last_block = 0 := by
          rw [tracked_add]; exact hinv
        have := ih (acc ++ [processed]) (add_transaction db processed now).2 hinv2 w c
        rw [get_wallet_last_block_add db processed now w c] at this
        exact this

/-- A single `check_wallet` call never lowers any cursor. -/
theorem check_wallet_glwb_mono (exdb : ExchangeDB) (orders : RawTx → List String)
    (fetched : Except Unit (List RawTx)) (price : Option ℚ) (now : ℚ)
    (db : DBState) (W : String) (rank : Int) (C : String) (w c : String) :
    get_wallet_last_block db w c ≤
      get_wallet_last_block (check_wallet exdb orders fetched price now db W rank C).2 w c := by
  unfold check_wallet
  rcases fetched with e | txs
  · simp
  · simp only
    apply check_wallet_loop_glwb_mono
    cases htr : tracked db W C
    · exact Or.inr (get_wallet_last_block_of_not_tracked db W C htr)
    · exact Or.inl rfl

/-- C1: across any sequence of poll/update operations, the stored cursor
`last_block_height` read for any (wallet, coin) never decreases: the upsert
takes `MAX(stored, candidate)` on an existing row, and a fresh row is only
created from the poller's guard, whose candidate beat the default read
of 0. -/
theorem run_polls_cursor_monotone (exdb : ExchangeDB) (ops : List PollOp)
    (db : DBState) (w c : String) :
    get_wallet_last_block db w c ≤
      get_wallet_last_block (run_polls exdb db ops) w c := by
  induction ops generalizing db with
  | nil => simp [run_polls]
  | cons op rest ih =>
    have h1 : get_wallet_last_block db w c ≤
        get_wallet_last_block (run_poll exdb db op) w c :=
      check_wallet_glwb_mono exdb op.orders op.fetched op.current_price op.now db
        op.wallet_address op.rank op.coin_type w c
    have h2 := ih (run_poll exdb db op)
    simp only [run_polls, List.foldl_cons] at h2 ⊢
    exact le_trans h1 h2

end WhaleMonitor

namespace WhaleMonitor

/-- Fields the classifier copies verbatim into a produced record. -/
theorem process_transaction_fields (exdb : ExchangeDB) (addr_order : List String)
    (tx : RawTx) (W : String) (rank : Int) (coin : String) (price : Option ℚ)
    (r : TxRecord) (h : process_transaction exdb addr_order tx W rank coin price = some r) :
    r.tx_hash = tx.hash ∧ r.wallet_address = W ∧
      r.block_height = tx.block_height.getD (-1) := by
  unfold process_transaction at h
  by_cases hz : inputAmount W tx.inputs +
      (if walletInInputs W tx.inputs then 0 else outputAmount W tx.outputs) = 0
  · simp only [hz, if_pos rfl] at h
    exact absurd h (by simp)
  · simp only [if_neg hz, Option.some.injEq] at h
    subst h
    exact ⟨rfl, rfl, rfl⟩

/-- With nonnegative stored rows, any cursor read is nonnegative. -/
theorem get_wallet_last_block_nonneg (db : DBState) (w c : String)
    (h : ∀ row ∈ db.tracking, 0 ≤ row.last_block_height) :
    0 ≤ get_wallet_last_block db w c := by
  unfold get_wallet_last_block
  rcases hf : db.tracking.find? (fun r => trackKey r w c) with _ | r0
  · exact le_refl 0
  · exact h r0 (List.mem_of_find?_eq_some hf)

/-- An upsert with a nonnegative candidate keeps all stored rows nonnegative. -/
theorem update_rows_nonneg (db : DBState) (w c : String) (h : Int)
    (rk : Option Int) (hrows : ∀ row ∈ db.tracking, 0 ≤ row.last_block_height)
    (hh : 0 ≤ h) :
    ∀ row ∈ (update_wallet_tracking db w c h rk).tracking, 0 ≤ row.last_block_height := by
  unfold update_wallet_tracking
  by_cases hany : db.tracking.any (fun r => trackKey r w c) = true
  · simp only [hany, if_true]
    intro row hrow
    rcases List.mem_map.mp hrow with ⟨orig, horig, rfl⟩
    by_cases hk : trackKey orig w c = true
    · simp only [hk, if_true]
      exact le_trans (hrows orig horig) (le_max_left _ _)
    · have hkf : trackKey orig w c = false := Bool.eq_false_iff.mpr hk
      simp only [hkf, Bool.false_eq_true, if_false]
      exact hrows orig horig
  · have hfalse : db.tracking.any (fun r => trackKey r w c) = false :=
      Bool.eq_false_iff.mpr hany
    simp only [hfalse, Bool.false_eq_true, if_false]
    intro row hrow
    rcases List.mem_append.mp hrow with hl | hr
    · exact hrows row hl
    · rcases List.mem_singleton.mp hr with rfl
      exact hh

/-- With a nonnegative cursor read, a batch of height-less transactions
leaves the tracking table untouched. -/
theorem check_wallet_loop_tracking_unchanged (exdb : ExchangeDB)
    (orders : RawTx → List String) (W : String) (rank : Int) (C : String)
    (price : Option ℚ) (now : ℚ) (last_block : Int) (hlb : 0 ≤ last_block) :
    ∀ (txs : List RawTx) (acc : List TxRecord) (db : DBState),
      (∀ t ∈ txs, t.block_height = none) →
      (check_wallet_loop exdb orders W rank C price now last_block acc db txs).2.tracking =
        db.tracking := by
  intro txs
  induction txs with
  | nil =>
    intro acc db hnone
    simp [check_wallet_loop]
  | cons tx rest ih =>
    intro acc db hnone
    rcases hp : process_transaction exdb (orders tx) tx W rank C price with _ | processed
    · simp only [check_wallet_loop, hp]
      exact ih acc db (fun t ht => hnone t (List.mem_cons_of_mem tx ht))
    · simp only [check_wallet_loop, hp]
      have hh : tx.block_height = none := hnone tx (List.mem_cons_self tx rest)
      have hguard : ¬((tx.block_height.getD 0) > last_block) := by
        rw [hh]
        simp only [Option.getD_none]
        omega
      simp only [if_neg hguard]
      rw [ih (acc ++ [processed]) (add_transaction db processed now).2
        (fun t ht => hnone t (List.mem_cons_of_mem tx ht))]
      exact add_transaction_tracking db processed now

/-- With nonnegative stored rows and a nonnegative cursor read, the loop
keeps every stored row nonnegative. -/
theorem check_wallet_loop_rows_nonneg (exdb : ExchangeDB)
    (orders : RawTx → List String) (W : String) (rank : Int) (C : String)
    (price : Option ℚ) (now : ℚ) (last_block : Int) (hlb : 0 ≤ last_block) :
    ∀ (txs : List RawTx) (acc : List TxRecord) (db : DBState),
      (∀ row ∈ db.tracking, 0 ≤ row.last_block_height) →
      ∀ row ∈ (check_wallet_loop exdb orders W rank C price now
          last_block acc db txs).2.tracking, 0 ≤ row.last_block_height := by
  intro txs
  induction txs with
  | nil =>
    intro acc db hrows
    simpa [check_wallet_loop] using hrows
  | cons tx rest ih =>
    intro acc db hrows
    rcases hp : process_transaction exdb (orders tx) tx W rank C price with _ | processed
    · simp only [check_wallet_loop, hp]
      exact ih acc db hrows
    · simp only [check_wallet_loop, hp]
      have hrows2 : ∀ row ∈ (add_transaction db processed now).2.tracking,
          0 ≤ row.last_block_height := by
        rw [add_transaction_tracking]
        exact hrows
      by_cases hguard : (tx.block_height.getD 0) > last_block
      · simp only [if_pos hguard]
        rcases hh : tx.block_height with _ | hgt
        · simpa using hrows2
        · simp only
          apply ih
          apply update_rows_nonneg _ W C hgt (some rank) hrows2
          rw [hh] at hguard
          simp only [Option.getD_some] at hguard
          omega
      · simp only [if_neg hguard]
        exact ih (acc ++ [processed]) (add_transaction db processed now).2 hrows2

/-- C10: a raw transaction without a `block_height` field classifies into a
record with `block_height = -1`, while the cursor-advance guard substitutes
0, so (the stored cursor being nonnegative) such a transaction never
advances the cursor — and polling preserves nonnegativity of every stored
cursor row. -/
theorem missing_height_never_advances_cursor :
    (∀ (exdb : ExchangeDB) (addr_order : List String) (tx : RawTx) (W : String)
        (rank : Int) (coin : String) (price : Option ℚ) (r : TxRecord),
      tx.block_height = none →
      process_transaction exdb addr_order tx W rank coin price = some r →
      r.block_height = -1) ∧
    (∀ (exdb : ExchangeDB) (orders : RawTx → List String) (txs : List RawTx)
        (price : Option ℚ) (now : ℚ) (db : DBState) (W : String) (rank : Int)
        (C : String),
      0 ≤ get_wallet_last_block db W C →
      (∀ t ∈ txs, t.block_height = none) →
      (check_wallet exdb orders (Except.ok txs) price now db W rank C).2.tracking =
        db.tracking) ∧
    (∀ (exdb : ExchangeDB) (orders : RawTx → List String)
        (fetched : Except Unit (List RawTx)) (price : Option ℚ) (now : ℚ)
        (db : DBState) (W : String) (rank : Int) (C : String),
      (∀ row ∈ db.tracking, 0 ≤ row.last_block_height) →
      ∀ row ∈ (check_wallet exdb orders fetched price now db W rank C).2.tracking,
        0 ≤ row.last_block_height) := by
  refine ⟨?_, ?_, ?_⟩
  · intro exdb addr_order tx W rank coin price r hh hp
    have := (process_transaction_fields exdb addr_order tx W rank coin price r hp).2.2
    rw [this, hh]
    rfl
  · intro exdb orders txs price now db W rank C hlb hnone
    unfold check_wallet
    simp only
    exact check_wallet_loop_tracking_unchanged exdb orders W rank C price now _ hlb
      txs [] db hnone
  · intro exdb orders fetched price now db W rank C hrows
    unfold check_wallet
    rcases fetched with e | txs
    · simpa using hrows
    · simp only
      exact check_wallet_loop_rows_nonneg exdb orders W rank C price now _
        (get_wallet_last_block_nonneg db W C hrows) txs [] db hrows

end WhaleMonitor

namespace WhaleMonitor

/-- A raw transaction whose payload lacks `block_height`. -/
def txNoHeight : RawTx :=
  { hash := "h0"
    block_height := none
    confirmed := false
    received := none
    inputs := [⟨["w0"], 100000000⟩]
    outputs := [] }

/-- The record classified from `txNoHeight`. -/
def recNoHeight : TxRecord :=
  { tx_hash := "h0"
    coin_type := "BTC"
    wallet_address := "w0"
    wallet_rank := 1
    amount_native := 1
    amount_usd := none
    from_addresses := ["w0"]
    to_addresses := []
    is_outgoing := true
    is_exchange_related := false
    exchange_name := none
    block_height := -1
    confirmed := false
    tx_timestamp := none }

/-- An empty store. -/
def dbEmpty : DBState := ⟨[], []⟩

/-- Witness for C10 at a concrete height-less transaction over an empty
store: the record carries height -1, the tracking table stays empty, and
all stored rows remain nonnegative. -/
theorem missing_height_never_advances_cursor_witness :
    recNoHeight.block_height = -1 ∧
      (check_wallet ⟨[]⟩ (fun _ => ["w0"]) (Except.ok [txNoHeight]) none 0 dbEmpty
        "w0" 1 "BTC").2.tracking = dbEmpty.tracking ∧
      (∀ row ∈ (check_wallet ⟨[]⟩ (fun _ => ["w0"]) (Except.ok [txNoHeight]) none 0 dbEmpty
          "w0" 1 "BTC").2.tracking, 0 ≤ row.last_block_height) :=
  ⟨missing_height_never_advances_cursor.1 ⟨[]⟩ ["w0"] txNoHeight "w0" 1 "BTC" none
      recNoHeight rfl
      (by norm_num [process_transaction, txNoHeight, recNoHeight, inputAmount,
        walletInInputs, exchangeScan]),
    missing_height_never_advances_cursor.2.1 ⟨[]⟩ (fun _ => ["w0"]) [txNoHeight] none 0
      dbEmpty "w0" 1 "BTC" (by decide) (by decide),
    missing_height_never_advances_cursor.2.2 ⟨[]⟩ (fun _ => ["w0"])
      (Except.ok [txNoHeight]) none 0 dbEmpty "w0" 1 "BTC" (by decide)⟩

end WhaleMonitor

namespace WhaleMonitor

/-- After `add_transaction`, a row with the record's identity
(tx_hash, wallet_address) is stored — freshly inserted, or the already
present duplicate. -/
theorem add_transaction_mem (db : DBState) (p : TxRecord) (now : ℚ) :
    ∃ s ∈ (add_transaction db p now).2.transactions,
      s.record.tx_hash = p.tx_hash ∧ s.record.wallet_address = p.wallet_address := by
  unfold add_transaction
  by_cases hany : db.transactions.any (fun r =>
      r.record.tx_hash == p.tx_hash && r.record.wallet_address == p.wallet_address) = true
  · simp only [hany, if_true]
    rcases List.any_eq_true.mp hany with ⟨s, hs, hps⟩
    simp only [Bool.and_eq_true, beq_iff_eq] at hps
    exact ⟨s, hs, hps⟩
  · have hfalse : db.transactions.any (fun r =>
        r.record.tx_hash == p.tx_hash && r.record.wallet_address == p.wallet_address) = false :=
      Bool.eq_false_iff.mpr hany
    simp only [hfalse, Bool.false_eq_true, if_false]
    exact ⟨⟨p, now⟩, List.mem_append_right _ (List.mem_singleton_self _), rfl, rfl⟩

/-- `add_transaction` never removes stored rows. -/
theorem add_transaction_transactions_mono (db : DBState) (p : TxRecord) (now : ℚ)
    (s : StoredTx) (hs : s ∈ db.transactions) :
    s ∈ (add_transaction db p now).2.transactions := by
  unfold add_transaction
  split
  · exact hs
  · exact List.mem_append_left _ hs

/-- An upsert never touches the transactions table. -/
theorem update_wallet_tracking_transactions (db : DBState) (w c : String)
    (h : Int) (rk : Option Int) :
    (update_wallet_tracking db w c h rk).transactions = db.transactions := by
  unfold update_wallet_tracking
  split <;> rfl

/-- The poll loop never removes stored rows. -/
theorem check_wallet_loop_transactions_mono (exdb : ExchangeDB)
    (orders : RawTx → List String) (W : String) (rank : Int) (C : String)
    (price : Option ℚ) (now : ℚ) (last_block : Int) :
    ∀ (txs : List RawTx) (acc : List TxRecord) (db : DBState) (s : StoredTx),
      s ∈ db.transactions →
      s ∈ (check_wallet_loop exdb orders W rank C price now last_block acc db txs).2.transactions := by
  intro txs
  induction txs with
  | nil =>
    intro acc db s hs
    simpa [check_wallet_loop] using hs
  | cons tx rest ih =>
    intro acc db s hs
    rcases hp : process_transaction exdb (orders tx) tx W rank C price with _ | processed
    · simp only [check_wallet_loop, hp]
      exact ih acc db s hs
    · simp only [check_wallet_loop, hp]
      have hs2 : s ∈ (add_transaction db processed now).2.transactions :=
        add_transaction_transactions_mono db processed now s hs
      by_cases hguard : (tx.block_height.getD 0) > last_block
      · simp only [if_pos hguard]
        rcases hh : tx.block_height with _ | hgt
        · simpa using hs2
        · simp only
          apply ih
          rw [update_wallet_tracking_transactions]
          exact hs2
      · simp only [if_neg hguard]
        exact ih (acc ++ [processed]) (add_transaction db processed now).2 s hs2

/-- The tie between a moved cursor and a persisted (or already-duplicate)
record, threaded through the poll loop: whenever the final cursor differs
from the pre-loop read `last_block`, its value is the block height of a
fetched transaction whose record identity is stored. -/
theorem check_wallet_loop_cursor_tied (exdb : ExchangeDB)
    (orders : RawTx → List String) (W : String) (rank : Int) (C : String)
    (price : Option ℚ) (now : ℚ) (last_block : Int) (txsFull : List RawTx) :
    ∀ (txs : List RawTx) (acc : List TxRecord) (db : DBState),
      (∀ t ∈ txs, t ∈ txsFull) →
      (get_wallet_last_block db W C ≠ last_block →
        ∃ t ∈ txsFull, t.block_height = some (get_wallet_last_block db W C) ∧
          ∃ s ∈ db.transactions, s.record.tx_hash = t.hash ∧ s.record.wallet_address = W) →
      (get_wallet_last_block
          (check_wallet_loop exdb orders W rank C price now last_block acc db txs).2 W C ≠
            last_block →
        ∃ t ∈ txsFull, t.block_height =
            some (get_wallet_last_block
              (check_wallet_loop exdb orders W rank C price now last_block acc db txs).2 W C) ∧
          ∃ s ∈ (check_wallet_loop exdb orders W rank C price now
              last_block acc db txs).2.transactions,
            s.record.tx_hash = t.hash ∧ s.record.wallet_address = W) := by
  intro txs
  induction txs with
  | nil =>
    intro acc db hsub hq
    simpa [check_wallet_loop] using hq
  | cons tx rest ih =>
    intro acc db hsub hq
    have hsub2 : ∀ t ∈ rest, t ∈ txsFull :=
      fun t ht => hsub t (List.mem_cons_of_mem tx ht)
    rcases hp : process_transaction exdb (orders tx) tx W rank C price with _ | processed
    · simp only [check_wallet_loop, hp]
      exact ih acc db hsub2 hq
    · simp only [check_wallet_loop, hp]
      have hq2 : get_wallet_last_block (add_transaction db processed now).2 W C ≠ last_block →
          ∃ t ∈ txsFull, t.block_height =
              some (get_wallet_last_block (add_transaction db processed now).2 W C) ∧
            ∃ s ∈ (add_transaction db processed now).2.transactions,
              s.record.tx_hash = t.hash ∧ s.record.wallet_address = W := by
        rw [get_wallet_last_block_add]
        intro hne
        rcases hq hne with ⟨t, ht, hbh, s, hsmem, hsid⟩
        exact ⟨t, ht, hbh, s, add_transaction_transactions_mono db processed now s hsmem, hsid⟩
      by_cases hguard : (tx.block_height.getD 0) > last_block
      · simp only [if_pos hguard]
        rcases hh : tx.block_height with _ | hgt
        · simpa using hq2
        · simp only
          apply ih (acc ++ [processed]) _ hsub2
          set db2 := (add_transaction db processed now).2 with hdb2
          intro hne
          rw [get_wallet_last_block_update_same] at hne ⊢
          have hids := process_transaction_fields exdb (orders tx) tx W rank C price
            processed hp
          have hwit : ∃ s ∈ (update_wallet_tracking db2 W C hgt (some rank)).transactions,
              s.record.tx_hash = tx.hash ∧ s.record.wallet_address = W := by
            rw [update_wallet_tracking_transactions]
            rcases add_transaction_mem db processed now with ⟨s, hsmem, hid1, hid2⟩
            exact ⟨s, hsmem, by rw [hid1, hids.1], by rw [hid2, hids.2.1]⟩
          cases htr : tracked db2 W C
          · simp only [htr, Bool.false_eq_true, if_false] at hne ⊢
            exact ⟨tx, hsub tx (List.mem_cons_self tx rest), hh, hwit⟩
          · simp only [htr, if_true] at hne ⊢
            rcases max_choice (get_wallet_last_block db2 W C) hgt with hmax | hmax
            · rw [hmax] at hne ⊢
              rw [hdb2, get_wallet_last_block_add] at hne ⊢
              rcases hq hne with ⟨t, ht, hbh, s, hsmem, hsid⟩
              refine ⟨t, ht, hbh, s, ?_, hsid⟩
              rw [update_wallet_tracking_transactions]
              exact add_transaction_transactions_mono db processed now s hsmem
            · rw [hmax]
              exact ⟨tx, hsub tx (List.mem_cons_self tx rest), hh, hwit⟩
      · simp only [if_neg hguard]
        exact ih (acc ++ [processed]) (add_transaction db processed now).2 hsub2 hq2

end WhaleMonitor

namespace WhaleMonitor

/-- C2: a fetch failure leaves the store untouched and returns no records;
and after a successful fetch, whenever the wallet's cursor moved at all,
the new cursor value is the block height of one of the fetched
transactions whose record identity (tx_hash, wallet_address) is persisted
in the store — freshly inserted or already present as a duplicate. -/
theorem check_wallet_cursor_tied (exdb : ExchangeDB) (orders : RawTx → List String)
    (fetched : Except Unit (List RawTx)) (price : Option ℚ) (now : ℚ)
    (db : DBState) (W : String) (rank : Int) (C : String) :
    (∀ e : Unit, fetched = Except.error e →
      check_wallet exdb orders fetched price now db W rank C = ([], db)) ∧
    (∀ txs : List RawTx, fetched = Except.ok txs →
      get_wallet_last_block (check_wallet exdb orders fetched price now db W rank C).2 W C ≠
          get_wallet_last_block db W C →
      ∃ t ∈ txs, t.block_height =
          some (get_wallet_last_block
            (check_wallet exdb orders fetched price now db W rank C).2 W C) ∧
        ∃ s ∈ (check_wallet exdb orders fetched price now db W rank C).2.transactions,
          s.record.tx_hash = t.hash ∧ s.record.wallet_address = W) := by
  constructor
  · intro e he
    subst he
    rfl
  · intro txs he hne
    subst he
    unfold check_wallet at hne ⊢
    simp only at hne ⊢
    exact check_wallet_loop_cursor_tied exdb orders W rank C price now
      (get_wallet_last_block db W C) txs txs [] db (fun t ht => ht)
      (fun hcon => absurd rfl hcon) hne

/-- A raw transaction at height 5 moving 1 coin out of wallet `w1`. -/
def txB : RawTx :=
  { hash := "hb"
    block_height := some 5
    confirmed := true
    received := none
    inputs := [⟨["w1"], 100000000⟩]
    outputs := [] }

/-- Witness for C2: on an empty store, an errored fetch returns `([], db)`
unchanged, and a successful fetch of `txB` moves the cursor to 5 with the
record for `hb` persisted. -/
theorem check_wallet_cursor_tied_witness :
    check_wallet ⟨[]⟩ (fun _ => ["w1"]) (Except.error ()) none 0 dbEmpty "w1" 1 "BTC" =
        ([], dbEmpty) ∧
      ∃ t ∈ [txB], t.block_height =
          some (get_wallet_last_block
            (check_wallet ⟨[]⟩ (fun _ => ["w1"]) (Except.ok [txB]) none 0 dbEmpty
              "w1" 1 "BTC").2 "w1" "BTC") ∧
        ∃ s ∈ (check_wallet ⟨[]⟩ (fun _ => ["w1"]) (Except.ok [txB]) none 0 dbEmpty
            "w1" 1 "BTC").2.transactions,
          s.record.tx_hash = t.hash ∧ s.record.wallet_address = "w1" :=
  ⟨(check_wallet_cursor_tied ⟨[]⟩ (fun _ => ["w1"]) (Except.error ()) none 0 dbEmpty
      "w1" 1 "BTC").1 () rfl,
    (check_wallet_cursor_tied ⟨[]⟩ (fun _ => ["w1"]) (Except.ok [txB]) none 0 dbEmpty
      "w1" 1 "BTC").2 [txB] rfl
      (by norm_num [check_wallet, check_wallet_loop, process_transaction, inputAmount,
        walletInInputs, exchangeScan, add_transaction, update_wallet_tracking,
        get_wallet_last_block, tracked, trackKey, dbEmpty, txB])⟩

end WhaleMonitor

namespace WhaleMonitor

/-- The record classified from `txB`. -/
def recB : TxRecord :=
  { tx_hash := "hb"
    coin_type := "BTC"
    wallet_address := "w1"
    wallet_rank := 1
    amount_native := 1
    amount_usd := none
    from_addresses := ["w1"]
    to_addresses := []
    is_outgoing := true
    is_exchange_related := false
    exchange_name := none
    block_height := 5
    confirmed := true
    tx_timestamp := none }

/-- A store that already holds `recB` and a cursor at height 5. -/
def dbWithB : DBState :=
  ⟨[⟨recB, 0⟩],
    [{ wallet_address := "w1"
       coin_type := "BTC"
       wallet_rank := some 1
       last_block_height := 5
       transaction_count := 1 }]⟩

/-- C5 counterexample: re-fetching an already-stored transaction returns it
in the poll's list even though nothing was newly persisted — the store is
unchanged, yet the returned list is non-empty, so duplicates are not
excluded from the returned list. -/
theorem check_wallet_returns_duplicate :
    check_wallet ⟨[]⟩ (fun _ => ["w1"]) (Except.ok [txB]) none 0 dbWithB "w1" 1 "BTC" =
        ([recB], dbWithB) ∧ ([recB] : List TxRecord) ≠ [] := by
  constructor
  · norm_num [check_wallet, check_wallet_loop, process_transaction, inputAmount,
      walletInInputs, exchangeScan, add_transaction, get_wallet_last_block,
      trackKey, dbWithB, txB, recB]
  · simp

/-- C5 amended: with a nonnegative stored cursor, the poll returns every
successfully classified record of the fetched batch, in order — including
records whose identity was already stored (duplicates are not excluded
from the returned list; they are only excluded from persistence). -/
theorem check_wallet_returns_all_classified (exdb : ExchangeDB)
    (orders : RawTx → List String) (txs : List RawTx) (price : Option ℚ) (now : ℚ)
    (db : DBState) (W : String) (rank : Int) (C : String)
    (h : 0 ≤ get_wallet_last_block db W C) :
    (check_wallet exdb orders (Except.ok txs) price now db W rank C).1 =
      txs.filterMap (fun t => process_transaction exdb (orders t) t W rank C price) := by
  unfold check_wallet
  simp only
  suffices hloop : ∀ (txs2 : List RawTx) (acc : List TxRecord) (db2 : DBState),
      (check_wallet_loop exdb orders W rank C price now
        (get_wallet_last_block db W C) acc db2 txs2).1 =
        acc ++ txs2.filterMap (fun t =>
          process_transaction exdb (orders t) t W rank C price) by
    simpa using hloop txs [] db
  intro txs2
  induction txs2 with
  | nil =>
    intro acc db2
    simp [check_wallet_loop]
  | cons tx rest ih =>
    intro acc db2
    rcases hp : process_transaction exdb (orders tx) tx W rank C price with _ | processed
    · simp only [check_wallet_loop, hp, List.filterMap_cons_none]
      exact ih acc db2
    · simp only [check_wallet_loop, hp]
      simp only [List.filterMap_cons, hp]
      by_cases hguard : (tx.block_height.getD 0) > get_wallet_last_block db W C
      · simp only [if_pos hguard]
        rcases hh : tx.block_height with _ | hgt
        · rw [hh] at hguard
          simp only [Option.getD_none] at hguard
          omega
        · simp only
          rw [ih]
          simp
      · simp only [if_neg hguard]
        rw [ih]
        simp

end WhaleMonitor

namespace WhaleMonitor

/-- Witness for the amended C5 theorem on an empty store: the poll of `txB`
returns exactly the classified records of the batch. -/
theorem check_wallet_returns_all_classified_witness :
    (check_wallet ⟨[]⟩ (fun _ => ["w1"]) (Except.ok [txB]) none 0 dbEmpty
        "w1" 1 "BTC").1 =
      [txB].filterMap (fun t => process_transaction ⟨[]⟩ ["w1"] t "w1" 1 "BTC" none) :=
  check_wallet_returns_all_classified ⟨[]⟩ (fun _ => ["w1"]) [txB] none 0 dbEmpty
    "w1" 1 "BTC" (by decide)

end WhaleMonitor

namespace WhaleMonitor

/-- Rows returned by the recent-transactions query come from the store,
match the coin and lie inside the window. -/
theorem mem_get_recent_transactions (txdb : List StoredTx) (C : String) (hours : ℚ)
    (limit : Nat) (now : ℚ) (x : StoredTx)
    (hx : x ∈ get_recent_transactions txdb (some C) hours limit now) :
    x ∈ txdb ∧ x.record.coin_type = C ∧ now - hours / 24 < x.detected_at := by
  unfold get_recent_transactions at hx
  simp only at hx
  have h1 := List.Sublist.mem hx (List.take_sublist limit _)
  have h2 := ((List.mergeSort_perm (txdb.filter (fun r => r.record.coin_type == C &&
    decide (now - hours / 24 < r.detected_at)))
      (fun a b => decide (b.detected_at ≤ a.detected_at))).mem_iff).mp h1
  rcases List.mem_filter.mp h2 with ⟨hmem, hpred⟩
  simp only [Bool.and_eq_true, beq_iff_eq, decide_eq_true_eq] at hpred
  exact ⟨hmem, hpred.1, hpred.2⟩

/-- Counting bound: a wallet's rows in the limited recent-transactions
query never exceed its 30-day row count, provided the query window lies
inside the 30-day lookback. -/
theorem wallet_recent_count_le (txdb : List StoredTx) (W C : String) (hours : ℚ)
    (limit : Nat) (now : ℚ) (hh : now - 30 ≤ now - hours / 24) :
    ((get_recent_transactions txdb (some C) hours limit now).filter
      (fun r => r.record.wallet_address == W)).length ≤
    (txdb.filter (fun r => r.record.wallet_address == W && r.record.coin_type == C &&
      decide (now - 30 < r.detected_at))).length := by
  unfold get_recent_transactions
  simp only
  have h1 : ((((txdb.filter (fun r => r.record.coin_type == C &&
      decide (now - hours / 24 < r.detected_at))).mergeSort
        (fun a b => decide (b.detected_at ≤ a.detected_at))).take limit).filter
          (fun r => r.record.wallet_address == W)).length ≤
      (((txdb.filter (fun r => r.record.coin_type == C &&
        decide (now - hours / 24 < r.detected_at))).mergeSort
          (fun a b => decide (b.detected_at ≤ a.detected_at))).filter
            (fun r => r.record.wallet_address == W)).length :=
    ((List.take_sublist _ _).filter _).length_le
  have h2 : (((txdb.filter (fun r => r.record.coin_type == C &&
      decide (now - hours / 24 < r.detected_at))).mergeSort
        (fun a b => decide (b.detected_at ≤ a.detected_at))).filter
          (fun r => r.record.wallet_address == W)).length =
      ((txdb.filter (fun r => r.record.coin_type == C &&
        decide (now - hours / 24 < r.detected_at))).filter
          (fun r => r.record.wallet_address == W)).length := by
    rw [← List.countP_eq_length_filter, ← List.countP_eq_length_filter]
    exact (List.mergeSort_perm _ _).countP_eq _
  have h3 : (((txdb.filter (fun r => r.record.coin_type == C &&
      decide (now - hours / 24 < r.detected_at))).filter
        (fun r => r.record.wallet_address == W)).length) ≤
      (txdb.filter (fun r => r.record.wallet_address == W && r.record.coin_type == C &&
        decide (now - 30 < r.detected_at))).length := by
    rw [← List.countP_eq_length_filter, ← List.countP_eq_length_filter,
      List.countP_filter]
    apply List.countP_mono_left
    intro r hr hpr
    simp only [Bool.and_eq_true, beq_iff_eq, decide_eq_true_eq] at hpr ⊢
    exact ⟨⟨hpr.1, hpr.2.1⟩, lt_of_le_of_lt hh hpr.2.2⟩
  exact le_trans h1 (le_trans (le_of_eq h2) h3)

end WhaleMonitor

namespace WhaleMonitor

/-- C8: the unusual-activity factor resolves to false for a wallet whose
entire 30-day recorded history (for the coin) is less than one day old —
in particular for a wallet with no history prior to the current 24-hour
window, regardless of how many of its transactions fall in that window.
(Timestamps are detection times, so they do not lie in the future.) -/
theorem is_unusual_activity_insufficient_history (txdb : List StoredTx)
    (W C : String) (now : ℚ)
    (h : ∀ r ∈ txdb, r.record.wallet_address = W → r.record.coin_type = C →
      now - 30 < r.detected_at → r.detected_at ≤ now ∧ now - r.detected_at < 1) :
    is_unusual_activity txdb W C 24 now = false := by
  simp only [is_unusual_activity]
  set R := ((get_recent_transactions txdb (some C) 24 100 now).filter
    (fun r => r.record.wallet_address == W)) with hR
  by_cases hc : ((R.length : ℚ)) = 0
  · rw [if_pos hc]
  · rw [if_neg hc]
    set H := txdb.filter (fun r => r.record.wallet_address == W &&
      r.record.coin_type == C && decide (now - 30 < r.detected_at)) with hH
    rcases hmin : (H.map (fun r => r.detected_at)).min? with _ | first
    · simp only [hmin]
    · simp only [hmin]
      haveI : Std.Antisymm (fun (a b : ℚ) => a ≤ b) :=
        ⟨fun h1 h2 => le_antisymm h1 h2⟩
      have hminiff := (List.min?_eq_some_iff (fun a => le_refl a)
        (fun a b => min_choice a b) (fun a b c => le_min_iff)).mp hmin
      rcases hminiff with ⟨hfmem, -⟩
      rcases List.mem_map.mp hfmem with ⟨rf, hrfH, hrfdet⟩
      have hrfHmem := hrfH
      rw [hH] at hrfHmem
      rcases List.mem_filter.mp hrfHmem with ⟨hrfdb, hrfpred⟩
      simp only [Bool.and_eq_true, beq_iff_eq, decide_eq_true_eq] at hrfpred
      have hrfc := h rf hrfdb hrfpred.1.1 hrfpred.1.2 hrfpred.2
      by_cases hd : now - first = 0
      · rw [if_pos hd]
      · rw [if_neg hd]
        rw [decide_eq_false_iff_not]
        intro hcon
        have h24 : (24:ℚ) / 24 = 1 := by norm_num
        rw [h24, mul_one] at hcon
        have hdays_lt : now - first < 1 := by rw [← hrfdet]; linarith [hrfc.2]
        have hdays_nonneg : 0 ≤ now - first := by rw [← hrfdet]; linarith [hrfc.1]
        have hdays_pos : 0 < now - first := lt_of_le_of_ne hdays_nonneg (Ne.symm hd)
        have hcount : R.length ≤ H.length := by
          rw [hR, hH]
          exact wallet_recent_count_le txdb W C 24 100 now (by norm_num; linarith)
        have hcast : ((R.length : ℚ)) ≤ (H.length : ℚ) := by exact_mod_cast hcount
        have hHpos : (1:ℚ) ≤ (H.length : ℚ) := by
          have hpos : 0 < H.length := List.length_pos.mpr (List.ne_nil_of_mem hrfH)
          exact_mod_cast hpos
        have hdivge : (H.length : ℚ) ≤ (H.length : ℚ) / (now - first) := by
          rw [le_div_iff₀ hdays_pos]
          nlinarith
        linarith [hcon, hcast, hdivge, hHpos]

end WhaleMonitor

namespace WhaleMonitor

/-- A store holding one record of wallet `w8`, detected half a day before
the query time. -/
def rowC8 : StoredTx :=
  ⟨{ tx_hash := "h8"
     coin_type := "BTC"
     wallet_address := "w8"
     wallet_rank := 1
     amount_native := 1
     amount_usd := none
     from_addresses := []
     to_addresses := []
     is_outgoing := false
     is_exchange_related := false
     exchange_name := none
     block_height := 1
     confirmed := true
     tx_timestamp := none }, 1 / 2⟩

/-- Witness for C8: a wallet whose only record is half a day old (no prior
history, under one day of history) is not flagged unusual. -/
theorem is_unusual_activity_insufficient_history_witness :
    is_unusual_activity [rowC8] "w8" "BTC" 24 1 = false :=
  is_unusual_activity_insufficient_history [rowC8] "w8" "BTC" 1 (by
    intro r hr h1 h2 h3
    rcases List.mem_singleton.mp hr with rfl
    constructor <;> norm_num [rowC8])

end WhaleMonitor
